import Mathlib

/-!
Verification development for the `qagmire` data-access layer
(`qagmire/data.py`): the netCDF conversion cache (`ViaNetCDF`),
its canonical cache-path computation, and the six FITS table readers.

Paths and column names are modelled as `List Char`; the Python path
helpers used by the code (`posixpath.normpath`, `os.path.join`,
`os.path.splitext`, `str.replace`, `os.path.basename`) are embedded
faithfully below.
-/

namespace Qagmire

abbrev Name := List Char

/-- Python `str.split(sep)` on character lists: splits at every separator,
keeping empty components (`"".split` gives one empty component). -/
def splitSep (sep : Char) : List Char → List (List Char)
  | [] => [[]]
  | c :: rest =>
    let r := splitSep sep rest
    if c = sep then [] :: r
    else
      match r with
      | [] => [[c]]
      | h :: t => (c :: h) :: t

/-- Join components with a separator character (Python `sep.join`). -/
def joinWithSep (sep : Char) : List (List Char) → List Char
  | [] => []
  | [p] => p
  | p :: rest => p ++ sep :: joinWithSep sep rest

/-- The step of `posixpath.normpath`'s component loop: skip empty and `"."`
components, append ordinary components, and let `".."` pop the previous
component (except at the start of a relative path or after another `".."`). -/
def normComps (slashes : Nat) (acc : List Name) (comps : List Name) : List Name :=
  match comps with
  | [] => acc
  | comp :: rest =>
    if comp = [] ∨ comp = ['.'] then normComps slashes acc rest
    else if comp ≠ ['.', '.'] ∨ (slashes = 0 ∧ acc = []) ∨ acc.getLast? = some ['.', '.'] then
      normComps slashes (acc ++ [comp]) rest
    else
      normComps slashes acc.dropLast rest

/-- Embedding of `posixpath.normpath`. -/
def normpath (p : List Char) : List Char :=
  if p = [] then ['.']
  else
    let slashes : Nat :=
      if ['/', '/'].isPrefixOf p ∧ ¬ ['/', '/', '/'].isPrefixOf p then 2
      else if ['/'].isPrefixOf p then 1 else 0
    let comps := normComps slashes [] (splitSep '/' p)
    let joined := List.replicate slashes '/' ++ joinWithSep '/' comps
    if joined = [] then ['.'] else joined

/-- Embedding of `posixpath.join(a, *parts)`: an absolute component resets the
result, otherwise a separator is inserted unless one is already present. -/
def joinPath (a : List Char) (parts : List (List Char)) : List Char :=
  match parts with
  | [] => a
  | b :: rest =>
    let a' :=
      if ['/'].isPrefixOf b then b
      else if a = [] ∨ a.getLast? = some '/' then a ++ b
      else a ++ '/' :: b
    joinPath a' rest

/-- Split a character list at its last occurrence of `sep`:
returns `(prefix including the separator, suffix after it)`;
with no separator the prefix is empty. -/
def splitLastSep (sep : Char) : List Char → List Char × List Char
  | [] => ([], [])
  | c :: rest =>
    if rest.contains sep then
      ((c :: (splitLastSep sep rest).1), (splitLastSep sep rest).2)
    else if c = sep then ([c], rest)
    else ([], c :: rest)

/-- Embedding of `posixpath.basename`. -/
def basename (p : List Char) : List Char := (splitLastSep '/' p).2

/-- Embedding of `posixpath.splitext`: split at the last dot of the final path
component, provided some earlier character of that component is not a dot
(so dotfiles such as `".fits"` have no extension). -/
def splitext (p : List Char) : List Char × List Char :=
  let dir := (splitLastSep '/' p).1
  let base := (splitLastSep '/' p).2
  let d := (splitLastSep '.' base).1
  if d = [] then (p, [])
  else if d.dropLast.any (· ≠ '.') then
    (dir ++ d.dropLast, '.' :: (splitLastSep '.' base).2)
  else (p, [])

/-- Fuel-driven worker for `pyReplace`; the fuel only needs to be at least the
length of the scanned string and exists to keep the recursion structural. -/
def pyReplaceAux (pat rep : List Char) : Nat → List Char → List Char
  | _, [] => []
  | 0, s => s
  | fuel + 1, c :: rest =>
    if pat.isPrefixOf (c :: rest) ∧ pat ≠ [] then
      rep ++ pyReplaceAux pat rep fuel ((c :: rest).drop pat.length)
    else
      c :: pyReplaceAux pat rep fuel rest

/-- Embedding of Python `str.replace(pat, rep)`: replace every occurrence of
`pat`, scanning left to right without overlap. -/
def pyReplace (pat rep : List Char) (s : List Char) : List Char :=
  pyReplaceAux pat rep s.length s

/-- Python `lst[-3:]`: the last three elements (all of them when fewer). -/
def lastThree {α : Type} (l : List α) : List α := l.drop (l.length - 3)

/-- The canonical cache path computed by `ViaNetCDF.single_via_netcdf`:
`os.path.join(store, *os.path.normpath(fn).split(os.sep)[-3:])`, then the
extension is stripped and `_<table>.nc` appended, where `table` is the read
function's name with `"read_"` removed (`str.replace`, all occurrences). -/
def canonicalCachePath (store : List Char) (readName : Name) (fn : List Char) : List Char :=
  let fnNetcdf := joinPath store (lastThree (splitSep '/' (normpath fn)))
  let table := pyReplace "read_".toList [] readName
  let root := (splitext fnNetcdf).1
  root ++ '_' :: (table ++ ".nc".toList)

/-! ### Numeric model: numpy rounding and axis-0 means

Column cell values are exact real numbers, modelled as fractions of
integers with positive denominator.  The fractions are deliberately kept
unnormalized (no gcd reduction) so that every operation is plain integer
arithmetic the kernel can evaluate; the code only ever compares values
after rounding to three decimals, which lands in ℤ, so value equality on
unnormalized representatives is never needed.  `ndarray.round(3)` rounds
half to even at the third decimal; `mean(axis=0)` averages across rows. -/

/-- Python's `pat in s` on strings: `pat` occurs contiguously in `s`. -/
def containsSub (pat : Name) : Name → Bool
  | [] => pat.isEmpty
  | c :: rest => pat.isPrefixOf (c :: rest) || containsSub pat rest

/-- An exact fraction `num / den`; every constructor in this development
keeps `den` positive. -/
structure Fr where
  num : ℤ
  den : ℤ
deriving DecidableEq

/-- The fraction denoting an integer. -/
def frInt (n : ℤ) : Fr := ⟨n, 1⟩

/-- The fraction denoting `k` thousandths (a value rounded to three
decimals). -/
def frTh (k : ℤ) : Fr := ⟨k, 1000⟩

/-- Exact addition of fractions (no normalization). -/
def frAdd (a b : Fr) : Fr := ⟨a.num * b.den + b.num * a.den, a.den * b.den⟩

/-- Exact division of a fraction by a positive count. -/
def frDivNat (a : Fr) (n : Nat) : Fr := ⟨a.num, a.den * n⟩

/-- Sum of a list of fractions. -/
def frSum (l : List Fr) : Fr := l.foldl frAdd (frInt 0)

/-- Round a fraction with positive denominator to the nearest integer,
ties to even (numpy rounding):  with `f = ⌊x⌋` the remainder `x - f`
is compared to `1/2` by comparing `2 (num - f·den)` with `den`. -/
def roundHalfEven (x : Fr) : ℤ :=
  let f := Int.fdiv x.num x.den
  let r2 := 2 * (x.num - f * x.den)
  if r2 < x.den then f
  else if x.den < r2 then f + 1
  else if f % 2 = 0 then f else f + 1

/-- Embedding of `ndarray.round(3)` on one value, expressed in integer
thousandths. -/
def round3 (x : Fr) : ℤ := roundHalfEven ⟨x.num * 1000, x.den⟩

/-- A column's data: one cell per table row; a cell is a vector of values
(length one for scalar columns). -/
abbrev Col := List (List Fr)

/-- Embedding of `ndarray.mean(axis=0)` for a rows-by-width array. -/
def meanAxis0 (rows : Col) : List Fr :=
  match rows with
  | [] => []
  | r :: _ =>
    (List.range r.length).map fun j =>
      frDivNat (frSum (rows.map fun row => row.getD j (frInt 0))) rows.length

/-- The rounded axis-0 mean of a column, in integer thousandths: the value
the promotion loop compares each row against. -/
def roundedMean (rows : Col) : List ℤ := (meanAxis0 rows).map round3

/-! ### Tables and datasets

An astropy `Table` read from a FITS extension becomes an ordered
name-to-column mapping (`dict(dat)` preserves column order); an xarray
`Dataset` is modelled by its data variables (each with an ordered dimension
list), its numeric coordinates and its string-valued coordinates. -/

/-- One column of a source table: cell data plus the unit string
(`str(col.unit)`). -/
structure RawCol where
  data : Col
  unit : Name
deriving DecidableEq

/-- The decoded content of one table extension, in column order. -/
abbrev Table := List (Name × RawCol)

/-- A data variable of a `Dataset`: ordered dimension names, data, unit. -/
structure Var where
  dims : List Name
  data : Col
  unit : Name
deriving DecidableEq

/-- An xarray `Dataset`: named data variables, numeric coordinates and
string-valued coordinates. -/
structure Dataset where
  dataVars : List (Name × Var)
  coords : List (Name × List Fr)
  strCoords : List (Name × List Name)
deriving DecidableEq

/-- Embedding of `Dataset.expand_dims({dim: vals})`: the new dimension is
prepended to every data variable and recorded as a coordinate. -/
def expandDims (dim : Name) (vals : List Name) (ds : Dataset) : Dataset :=
  { dataVars := ds.dataVars.map fun p => (p.1, { p.2 with dims := dim :: p.2.dims })
    coords := ds.coords
    strCoords := (dim, vals) :: ds.strCoords }

/-- A scalar column (singleton cells) viewed as a 1-D coordinate array. -/
def scalarVec (v : Col) : List Fr := v.map fun r => r.headD (frInt 0)

/-- Embedding of `dict.pop(name)`: remove the entry, keeping the order of the
others; a missing key raises (`KeyError`), modelled as `Except.error`. -/
def popCol (n : Name) : Table → Except Unit (RawCol × Table)
  | [] => .error ()
  | (c, v) :: rest =>
    if c = n then .ok (v, rest)
    else
      match popCol n rest with
      | .error e => .error e
      | .ok (v', rest') => .ok (v', (c, v) :: rest')

/-- The shared-coordinate promotion loop of `read_class_table` and
`read_class_spec`: each column selected by `elig` is removed, its axis-0 mean
is rounded to three decimals, and the loop asserts that every row rounds to
that same vector; on success the vector is stored as coordinate `cname c`,
otherwise the `assert` fails (`Except.error`). -/
def promoteCoords (elig : Name → Bool) (cname : Name → Name) :
    Table → Except Unit (Table × List (Name × List Fr))
  | [] => .ok ([], [])
  | (c, v) :: rest =>
    if elig c then
      let m := roundedMean v.data
      if v.data.all (fun r => decide (r.map round3 = m)) then
        match promoteCoords elig cname rest with
        | .error e => .error e
        | .ok (cs, cds) => .ok (cs, (cname c, m.map frTh) :: cds)
      else .error ()
    else
      match promoteCoords elig cname rest with
      | .error e => .error e
      | .ok (cs, cds) => .ok ((c, v) :: cs, cds)

/-- Build the data variables of a reader's `Dataset`: every column keeps its
name and gets dimensions `["APS_ID"]` plus reader-specific extra axes. -/
def buildVars (extra : Name → List Name) (cols : Table) : List (Name × Var) :=
  cols.map fun p => (p.1, ⟨"APS_ID".toList :: extra p.1, p.2.data, p.2.unit⟩)

/-! ### The six readers

Each reader is the body of the corresponding `read_*` function in
`qagmire/data.py`, applied to the decoded `Table`.  The byte-order step
`cols[c].newbyteorder().byteswap()` preserves every column's logical values
(proved below on the byte-level model), so on this value-level `Table` it is
the identity. -/

/-- Column eligibility for coordinate promotion in `read_class_table`:
`c.startswith("CZZ") and "CHI2" not in c`. -/
def eligClassTable (c : Name) : Bool :=
  "CZZ".toList.isPrefixOf c && !(containsSub "CHI2".toList c)

/-- Extra dimensions assigned by `read_class_table`. -/
def extraClassTable (c : Name) : List Name :=
  if "CZZ".toList.isPrefixOf c then [pyReplace "_CHI2".toList [] c]
  else if c = "COEFF".toList then ["I_COEFF".toList]
  else []

/-- Embedding of the body of `read_class_table`. -/
def read_class_table (t : Table) : Except Unit Dataset :=
  match popCol "APS_ID".toList t with
  | .error e => .error e
  | .ok (aps, cols) =>
    match promoteCoords eligClassTable (fun c => c) cols with
    | .error e => .error e
    | .ok (cols, czz) =>
      .ok { dataVars := buildVars extraClassTable cols
            coords := ("APS_ID".toList, scalarVec aps.data) :: czz
            strCoords := [] }

/-- Extra dimensions assigned by `read_star_table`. -/
def extraStarTable (c : Name) : List Name :=
  if c = "COVAR".toList then ["I_COVAR".toList, "J_COVAR".toList]
  else if containsSub "ELEM".toList c then ["I_ELEM".toList]
  else []

/-- The five stellar-parameter labels of the covariance axes. -/
def covarNames : List Name :=
  ["TEFF".toList, "LOGG".toList, "FEH".toList, "ALPHA".toList, "MICRO".toList]

/-- Embedding of the body of `read_star_table`. -/
def read_star_table (t : Table) : Except Unit Dataset :=
  match popCol "APS_ID".toList t with
  | .error e => .error e
  | .ok (aps, cols) =>
    .ok { dataVars := buildVars extraStarTable cols
          coords := [("APS_ID".toList, scalarVec aps.data)]
          strCoords := [("I_COVAR".toList, covarNames), ("J_COVAR".toList, covarNames)] }

/-- Embedding of `not_line_col`: drop every `"ERR_"` occurrence, then test
the line-measurement name heads. -/
def not_line_col (c : Name) : Bool :=
  let c' := pyReplace "ERR_".toList [] c
  !(["EBMV", "FLUX", "AMPL", "Z", "SIGMA", "AON", "FWHM"].any fun n =>
      (n.toList ++ ['_']).isPrefixOf c')

/-- Extra dimensions assigned by `read_galaxy_table`. -/
def extraGalaxyTable (c : Name) : List Name :=
  if containsSub "EBMV".toList c then ["I_EBMV".toList] else []

/-- Embedding of the body of `read_galaxy_table`; columns past position 100
(after `APS_ID` is removed) that are not line-measurement columns are renamed
with an `IDX_` marker. -/
def read_galaxy_table (t : Table) : Except Unit Dataset :=
  match popCol "APS_ID".toList t with
  | .error e => .error e
  | .ok (aps, cols) =>
    .ok { dataVars := cols.enum.map fun iv =>
            (if 100 < iv.1 && not_line_col iv.2.1 then "IDX_".toList ++ iv.2.1 else iv.2.1,
             (⟨"APS_ID".toList :: extraGalaxyTable iv.2.1, iv.2.2.data, iv.2.2.unit⟩ : Var))
          coords := [("APS_ID".toList, scalarVec aps.data)]
          strCoords := [] }

/-- Column eligibility for coordinate promotion in `read_class_spec`:
`c.startswith("LAMBDA")`. -/
def eligClassSpec (c : Name) : Bool := "LAMBDA".toList.isPrefixOf c

/-- Coordinate name chosen by `read_class_spec`: `LAMBDA_` plus the last
underscore-separated field of the column name (`c.split("_")[-1]`). -/
def cnameClassSpec (c : Name) : Name :=
  "LAMBDA_".toList ++ (splitSep '_' c).getLastD []

/-- Extra dimensions assigned by `read_class_spec`. -/
def extraClassSpec (c : Name) : List Name :=
  if "_B".toList.isSuffixOf c then ["LAMBDA_B".toList]
  else if "_R".toList.isSuffixOf c then ["LAMBDA_R".toList]
  else []

/-- Embedding of the body of `read_class_spec`. -/
def read_class_spec (t : Table) : Except Unit Dataset :=
  match popCol "APS_ID".toList t with
  | .error e => .error e
  | .ok (aps, cols) =>
    match promoteCoords eligClassSpec cnameClassSpec cols with
    | .error e => .error e
    | .ok (cols, lam) =>
      .ok { dataVars := buildVars extraClassSpec cols
            coords := ("APS_ID".toList, scalarVec aps.data) :: lam
            strCoords := [] }

/-- Extra dimensions assigned by `read_star_spec`. -/
def extraStarSpec (c : Name) : List Name :=
  if "_B".toList.isSuffixOf c then ["LAMBIN_B".toList]
  else if "_R".toList.isSuffixOf c then ["LAMBIN_R".toList]
  else if "_C".toList.isSuffixOf c then ["LAMBIN_C".toList]
  else []

/-- Embedding of the body of `read_star_spec`. -/
def read_star_spec (t : Table) : Except Unit Dataset :=
  match popCol "APS_ID".toList t with
  | .error e => .error e
  | .ok (aps, cols) =>
    .ok { dataVars := buildVars extraStarSpec cols
          coords := [("APS_ID".toList, scalarVec aps.data)]
          strCoords := [] }

/-- Extra dimensions assigned by `read_galaxy_spec`. -/
def extraGalaxySpec (c : Name) : List Name :=
  if "_PPXF".toList.isSuffixOf c || "_GAND".toList.isSuffixOf c then ["LOGLAMBIN".toList]
  else []

/-- Embedding of the body of `read_galaxy_spec`. -/
def read_galaxy_spec (t : Table) : Except Unit Dataset :=
  match popCol "APS_ID".toList t with
  | .error e => .error e
  | .ok (aps, cols) =>
    .ok { dataVars := buildVars extraGalaxySpec cols
          coords := [("APS_ID".toList, scalarVec aps.data)]
          strCoords := [] }

/-! ### The conversion cache (`ViaNetCDF`)

`single_via_netcdf` and the `netcdf_wrapper` batch loop are modelled as
state transformers over the cache store's filesystem, with an event log
recording reader invocations, directory creation and file writes. -/

abbrev Path := List Char

/-- The cache store's filesystem: the netCDF files present, with contents.
A later entry for the same path shadows an earlier one. -/
abbrev FS := List (Path × Dataset)

/-- `os.path.exists` on the modelled filesystem. -/
def fsHas (fs : FS) (p : Path) : Bool := fs.any fun e => decide (e.1 = p)

/-- Read the dataset stored at a path, when present. -/
def fsGet (fs : FS) (p : Path) : Option Dataset :=
  (fs.find? fun e => decide (e.1 = p)).map fun e => e.2

/-- `Dataset.to_netcdf(p)`: record the file at `p`. -/
def fsWrite (fs : FS) (p : Path) (d : Dataset) : FS := (p, d) :: fs

/-- Observable side effects of one `single_via_netcdf` call. -/
inductive Ev where
  | readSource (fn : Path)
  | makeDirs (dir : Path)
  | writeFile (p : Path)
deriving DecidableEq

/-- A single-file read function, as the cache layer sees it: it may raise
(malformed file, missing extension), modelled as `Except.error`. -/
abbrev Reader := Path → Except Unit Dataset

/-- `os.path.splitext(os.path.basename(fn))[0]`: the source file's base name
without its extension. -/
def stemOfBasename (fn : Path) : Name := (splitext (basename fn)).1

/-- Embedding of `ViaNetCDF.single_via_netcdf`: compute the canonical cache
path; if a file exists there, return it immediately (no events); otherwise
invoke the reader, add the length-one `filename` dimension, create the parent
directories and write the netCDF file. -/
def singleViaNetcdf (read : Reader) (readName : Name) (store : Path) (fn : Path)
    (fs : FS) : Except Unit (Path × FS × List Ev) :=
  let p := canonicalCachePath store readName fn
  if fsHas fs p then .ok (p, fs, [])
  else
    match read fn with
    | .error e => .error e
    | .ok ds =>
      let withFile := expandDims "filename".toList [stemOfBasename fn] ds
      .ok (p, fsWrite fs p withFile,
           [.readSource fn, .makeDirs (splitLastSep '/' p).1, .writeFile p])

/-- Embedding of the list comprehension in `netcdf_wrapper`: convert each file
in order; an exception from one conversion propagates and aborts the loop,
while files already converted stay on disk. -/
def runBatch (read : Reader) (readName : Name) (store : Path) :
    List Path → FS → Except Unit (List Path) × FS
  | [], fs => (.ok [], fs)
  | fn :: rest, fs =>
    match singleViaNetcdf read readName store fn fs with
    | .error e => (.error e, fs)
    | .ok (p, fs', _) =>
      match runBatch read readName store rest fs' with
      | (.error e, fs'') => (.error e, fs'')
      | (.ok ps, fs'') => (.ok (p :: ps), fs'')

/-- Visibility of the canonical cache path at one instant: whether a file is
present there and whether its write has completed. -/
structure WriteState where
  present : Bool
  complete : Bool
deriving DecidableEq

/-- The canonical path's visibility after each statement of one
`single_via_netcdf` call: the existence check, the reader invocation, the
directory creation, and the `to_netcdf` write.  The code hands `to_netcdf`
the final path directly — there is no temporary path and no rename — so the
write is modelled as file creation at the final path followed by completion
of the write. -/
def cacheWriteTrace (read : Reader) (fn : Path) (present0 : Bool) : List WriteState :=
  let s0 : WriteState := ⟨present0, present0⟩
  if present0 then [s0]
  else
    match read fn with
    | .error _ => [s0, s0]
    | .ok _ => [s0, s0, s0, ⟨true, false⟩, ⟨true, true⟩]

/-! ### Byte-order normalization

The readers apply `cols[c].newbyteorder().byteswap()` to every column.
A numpy column is modelled by its dtype's byte-order flag (relative to the
platform) and the stored bytes of each element; `newbyteorder` flips the
flag without touching the bytes, `byteswap` reverses each element's bytes
without touching the flag. -/

/-- A numpy column at byte level: dtype byte-order flag plus each element's
stored bytes in memory order. -/
structure NpColumn where
  isNative : Bool
  elems : List (List Nat)
deriving DecidableEq

/-- Decode stored bytes in the platform's native order (first byte least
significant, by convention). -/
def decodeNat (bytes : List Nat) : Nat :=
  bytes.foldr (fun b acc => b + 256 * acc) 0

/-- The logical value of an element under a byte-order flag. -/
def logicalValue (isNative : Bool) (bytes : List Nat) : Nat :=
  if isNative then decodeNat bytes else decodeNat bytes.reverse

/-- The logical values held by a column. -/
def logicalValues (a : NpColumn) : List Nat :=
  a.elems.map (logicalValue a.isNative)

/-- `ndarray.newbyteorder()`: flip the dtype flag, keep the bytes. -/
def newbyteorder (a : NpColumn) : NpColumn := { a with isNative := !a.isNative }

/-- `ndarray.byteswap()`: reverse each element's bytes, keep the dtype. -/
def byteswap (a : NpColumn) : NpColumn := { a with elems := a.elems.map List.reverse }

/-- The per-column normalization step of every reader:
`cols[c].newbyteorder().byteswap()`. -/
def normalizeColumn (a : NpColumn) : NpColumn := byteswap (newbyteorder a)

/-! ### The spec's stated path format

For comparison with the code's `canonicalCachePath`. -/

/-- Modelled from the spec's words (the Canonical Cache Path format):
`<cache_root>/<last 3 path segments of source file, with original
separators>/<source-file-basename-without-extension>_<table-name>.nc`,
where the table name is the reader's name with a `"read_"` prefix
stripped. -/
def specPathFormat (store : Path) (readName : Name) (fn : Path) : Path :=
  let segs := lastThree (splitSep '/' (normpath fn))
  let table :=
    if "read_".toList.isPrefixOf readName then readName.drop 5 else readName
  joinPath store segs ++
    '/' :: ((splitext (basename fn)).1 ++ '_' :: (table ++ ".nc".toList))

/-- The assertion tested by the coordinate-promotion loop for one column:
every row, rounded to three decimals, equals the rounded axis-0 mean. -/
def rowsRounded (v : Col) : Bool :=
  v.all fun r => decide (r.map round3 = roundedMean v)

/-- An empty dataset, used for concrete cache runs. -/
def exDataset : Dataset := ⟨[], [], []⟩

/-- A reader that succeeds on every file. -/
def okReader : Reader := fun _ => .ok exDataset

/-- A reader that raises on the single file `d/e/f2.fits` and succeeds on
every other file. -/
def c6Reader : Reader := fun fn =>
  if fn = "d/e/f2.fits".toList then .error () else .ok exDataset

/-- Whether `APS_ID` is the first dimension of every data variable. -/
def apsLeading (ds : Dataset) : Bool :=
  ds.dataVars.all fun nv => decide (nv.2.dims.head? = some "APS_ID".toList)

/-- A tiny two-column table accepted by all six readers. -/
def t0 : Table :=
  [("APS_ID".toList, ⟨[[frInt 1]], "None".toList⟩),
   (['X'], ⟨[[frInt 3]], "None".toList⟩)]

/-- The dataset the table readers without extra coordinates produce on `t0`. -/
def dsA : Dataset :=
  ⟨[(['X'], ⟨["APS_ID".toList], [[frInt 3]], "None".toList⟩)],
   [("APS_ID".toList, [frInt 1])], []⟩

/-- The dataset `read_star_table` produces on `t0`. -/
def dsB : Dataset :=
  ⟨[(['X'], ⟨["APS_ID".toList], [[frInt 3]], "None".toList⟩)],
   [("APS_ID".toList, [frInt 1])],
   [("I_COVAR".toList, covarNames), ("J_COVAR".toList, covarNames)]⟩

/-- A `CLASS_TABLE` whose `CZZ_Z6` column is constant across rows. -/
def tGoodClass : Table :=
  [("APS_ID".toList, ⟨[[frInt 1], [frInt 2]], "None".toList⟩),
   ("CZZ_Z6".toList, ⟨[[frInt 2], [frInt 2]], "None".toList⟩),
   ("CZZ_CHI2_Z6".toList, ⟨[[frInt 5], [frInt 6]], "None".toList⟩)]

/-- A `CLASS_TABLE` whose `CZZ_Z6` column differs between rows. -/
def tBadClass : Table :=
  [("APS_ID".toList, ⟨[[frInt 1], [frInt 2]], "None".toList⟩),
   ("CZZ_Z6".toList, ⟨[[frInt 2], [frInt 3]], "None".toList⟩)]

/-- The dataset `read_class_table` produces on `tGoodClass`. -/
def dsGoodClass : Dataset :=
  ⟨[("CZZ_CHI2_Z6".toList,
     ⟨["APS_ID".toList, "CZZ_Z6".toList], [[frInt 5], [frInt 6]], "None".toList⟩)],
   [("APS_ID".toList, [frInt 1, frInt 2]),
    ("CZZ_Z6".toList, [frTh 2000])], []⟩

/-- A `CLASS_SPEC` whose `LAMBDA_B` column is constant across rows. -/
def tGoodSpec : Table :=
  [("APS_ID".toList, ⟨[[frInt 1], [frInt 2]], "None".toList⟩),
   ("LAMBDA_B".toList, ⟨[[frInt 4], [frInt 4]], "Angstrom".toList⟩),
   ("FLUX_B".toList, ⟨[[frInt 7], [frInt 8]], "None".toList⟩)]

/-- A `CLASS_SPEC` whose `LAMBDA_B` column differs between rows. -/
def tBadSpec : Table :=
  [("APS_ID".toList, ⟨[[frInt 1], [frInt 2]], "None".toList⟩),
   ("LAMBDA_B".toList, ⟨[[frInt 4], [frInt 5]], "Angstrom".toList⟩)]

/-- The dataset `read_class_spec` produces on `tGoodSpec`. -/
def dsGoodSpec : Dataset :=
  ⟨[("FLUX_B".toList,
     ⟨["APS_ID".toList, "LAMBDA_B".toList], [[frInt 7], [frInt 8]], "None".toList⟩)],
   [("APS_ID".toList, [frInt 1, frInt 2]),
    ("LAMBDA_B".toList, [frTh 4000])], []⟩

end Qagmire

deriving instance DecidableEq for Except

namespace Qagmire

/-! ## Helper lemmas -/

lemma isPrefixOf_append_self (l t : List Char) : l.isPrefixOf (l ++ t) = true := by
  induction l with
  | nil => simp [List.isPrefixOf]
  | cons c cs ih => simp [List.isPrefixOf, ih]

lemma pyReplaceAux_fuel (pat rep : List Char) :
    ∀ (n f g : Nat) (s : List Char), s.length = n → n ≤ f → n ≤ g →
      pyReplaceAux pat rep f s = pyReplaceAux pat rep g s := by
  intro n
  induction n using Nat.strong_induction_on with
  | _ n ih =>
    intro f g s hn hf hg
    match s with
    | [] => cases f <;> cases g <;> rfl
    | c :: rest =>
      have hn1 : rest.length + 1 = n := by simpa using hn
      obtain ⟨f', rfl⟩ : ∃ f', f = f' + 1 := ⟨f - 1, by omega⟩
      obtain ⟨g', rfl⟩ : ∃ g', g = g' + 1 := ⟨g - 1, by omega⟩
      simp only [pyReplaceAux]
      by_cases hc : pat.isPrefixOf (c :: rest) = true ∧ pat ≠ []
      · rw [if_pos hc, if_pos hc]
        have hplen : 1 ≤ pat.length := by
          cases pat with
          | nil => exact absurd rfl hc.2
          | cons _ _ => simp
        have hdl : ((c :: rest).drop pat.length).length = rest.length + 1 - pat.length := by
          simp
        congr 1
        exact ih _ (by omega) f' g' _ hdl (by omega) (by omega)
      · rw [if_neg hc, if_neg hc]
        congr 1
        exact ih rest.length (by omega) f' g' rest rfl (by omega) (by omega)

lemma pyReplace_head (pat rep c : List Char) (hp : pat ≠ []) :
    pyReplace pat rep (pat ++ c) = rep ++ pyReplace pat rep c := by
  match pat, hp with
  | p0 :: pt, hp =>
    simp only [pyReplace]
    have hl : ((p0 :: pt) ++ c).length = (pt.length + c.length) + 1 := by
      simp only [List.length_append, List.length_cons]
      omega
    rw [hl]
    simp only [List.cons_append, pyReplaceAux, List.append_eq]
    rw [if_pos ⟨isPrefixOf_append_self (p0 :: pt) c, hp⟩]
    congr 1
    have hd : (p0 :: (pt ++ c)).drop (p0 :: pt).length = c := by
      have hsh : (p0 :: (pt ++ c)) = (p0 :: pt) ++ c := by simp
      rw [hsh, List.drop_left]
    rw [hd]
    exact pyReplaceAux_fuel (p0 :: pt) rep c.length _ _ c rfl (by omega) (by omega)

lemma fsHas_write_self (fs : FS) (p : Path) (d : Dataset) :
    fsHas (fsWrite fs p d) p = true := by
  simp [fsHas, fsWrite]

lemma fsGet_write_self (fs : FS) (p : Path) (d : Dataset) :
    fsGet (fsWrite fs p d) p = some d := by
  simp [fsGet, fsWrite, List.find?]

/-! ## C10: `not_line_col` ignores an `ERR_` prefix -/

/-- C10: for every column-name string `c`,
`not_line_col ("ERR_" ++ c) = not_line_col c` — prefixing a name with
`ERR_` never changes its line-measurement classification, so in
`read_galaxy_table` a column and its error counterpart past the positional
cutoff are renamed (or not) consistently. -/
theorem not_line_col_err_stable (c : Name) :
    not_line_col ("ERR_".toList ++ c) = not_line_col c := by
  simp only [not_line_col, pyReplace_head "ERR_".toList [] c (by decide),
    List.nil_append]

/-! ## C7: byte-order normalization -/

/-- C7 counterexample: the normalization `newbyteorder().byteswap()` flips
the byte order unconditionally, so a column that is already in native order
comes out in foreign order — the claim's "regardless of whether the source
stored native or foreign order" fails on a native-order source column. -/
theorem byte_order_native_source_counterexample :
    (NpColumn.mk true [[1, 2]]).isNative = true ∧
    (normalizeColumn (NpColumn.mk true [[1, 2]])).isNative = false ∧
    logicalValues (normalizeColumn (NpColumn.mk true [[1, 2]])) =
      logicalValues (NpColumn.mk true [[1, 2]]) := by decide

/-- C7 amended: `newbyteorder().byteswap()` always preserves every column's
logical values and always flips the dtype's byte-order flag; a
foreign-order source column (as FITS table columns are) therefore becomes
native, while a native-order column would become foreign. -/
theorem byte_order_normalization (a : NpColumn) :
    logicalValues (normalizeColumn a) = logicalValues a ∧
    (normalizeColumn a).isNative = !a.isNative := by
  refine ⟨?_, rfl⟩
  simp only [logicalValues, normalizeColumn, byteswap, newbyteorder, List.map_map]
  apply List.map_congr_left
  intro b _
  cases h : a.isNative <;> simp [logicalValue, h, List.reverse_reverse]

/-! ## C1: the single-file cache operation is idempotent -/

/-- C1: if `single_via_netcdf` succeeds once for `(reader, file)`, calling it
again returns the same cache path, leaves the cache store untouched, and
performs no effect at all (no reader invocation, no directory creation, no
write): the file now exists at the canonical path, so it is returned
immediately. -/
theorem single_via_netcdf_idempotent (read : Reader) (rn : Name) (store fn : Path)
    (fs fs₁ : FS) (p : Path) (ev : List Ev)
    (h : singleViaNetcdf read rn store fn fs = .ok (p, fs₁, ev)) :
    singleViaNetcdf read rn store fn fs₁ = .ok (p, fs₁, []) := by
  simp only [singleViaNetcdf] at h ⊢
  by_cases hc : fsHas fs (canonicalCachePath store rn fn) = true
  · rw [if_pos hc] at h
    cases h
    rw [if_pos hc]
  · rw [if_neg hc] at h
    cases hr : read fn with
    | error e => rw [hr] at h; cases h
    | ok ds =>
      rw [hr] at h
      cases h
      rw [if_pos (fsHas_write_self ..)]

/-- Witness for C1 at a concrete reader, file and empty cache store. -/
theorem single_via_netcdf_idempotent_witness :
    singleViaNetcdf okReader "read_t".toList "s".toList "a/b/c.fits".toList
        (fsWrite [] (canonicalCachePath "s".toList "read_t".toList "a/b/c.fits".toList)
          (expandDims "filename".toList [stemOfBasename "a/b/c.fits".toList] exDataset)) =
      .ok (canonicalCachePath "s".toList "read_t".toList "a/b/c.fits".toList,
        fsWrite [] (canonicalCachePath "s".toList "read_t".toList "a/b/c.fits".toList)
          (expandDims "filename".toList [stemOfBasename "a/b/c.fits".toList] exDataset),
        []) :=
  single_via_netcdf_idempotent okReader "read_t".toList "s".toList "a/b/c.fits".toList
    [] _ _
    [Ev.readSource "a/b/c.fits".toList,
     Ev.makeDirs (splitLastSep '/'
       (canonicalCachePath "s".toList "read_t".toList "a/b/c.fits".toList)).1,
     Ev.writeFile (canonicalCachePath "s".toList "read_t".toList "a/b/c.fits".toList)]
    (by decide)

/-! ## C2: when is a file visible at the canonical path -/

/-- C2 counterexample: the code passes the final path directly to
`to_netcdf`; in the write trace a file is visible at the canonical path
while the write is still incomplete, refuting "the write itself never
leaves a file visible at the final path before the write completes". -/
theorem direct_write_visible_counterexample :
    WriteState.mk true false ∈ cacheWriteTrace okReader "a/b/c.fits".toList false := by
  decide

/-- C2 amended: if the reader invocation fails, no file is ever visible at
the canonical path (the write happens only after the dataset is fully built
in memory), and a successful call ends with a complete artifact; however the
write goes directly to the final path, so mid-write the file is visible
there before the write completes. -/
theorem cache_write_only_after_read
    (readFail readOk : Reader) (fn : Path) (e : Unit) (ds : Dataset)
    (hf : readFail fn = .error e) (ho : readOk fn = .ok ds) :
    (cacheWriteTrace readFail fn false).all (fun s => !s.present) = true ∧
    (cacheWriteTrace readOk fn false).getLast? = some ⟨true, true⟩ := by
  constructor
  · simp [cacheWriteTrace, hf]
  · simp [cacheWriteTrace, ho]

/-- Witness for C2's amended statement at concrete readers and file. -/
theorem cache_write_only_after_read_witness :
    (cacheWriteTrace c6Reader "d/e/f2.fits".toList false).all (fun s => !s.present) = true ∧
    (cacheWriteTrace okReader "d/e/f2.fits".toList false).getLast? = some ⟨true, true⟩ :=
  cache_write_only_after_read c6Reader okReader "d/e/f2.fits".toList () exDataset
    (by decide) (by decide)

/-! ## C6: batch behavior on a failing file -/

/-- C6 counterexample: with three files where the second one's conversion
raises, the batch loop of `netcdf_wrapper` propagates the exception — the
whole batch aborts with an error, the first file's artifact is on disk, and
the third file is never converted, refuting "conversion of the other files
in the batch continues independently". -/
theorem batch_abort_counterexample :
    (runBatch c6Reader "read_t".toList "s".toList
        ["d/e/f1.fits".toList, "d/e/f2.fits".toList, "d/e/f3.fits".toList] []).1 =
      .error () ∧
    fsHas (runBatch c6Reader "read_t".toList "s".toList
        ["d/e/f1.fits".toList, "d/e/f2.fits".toList, "d/e/f3.fits".toList] []).2
      (canonicalCachePath "s".toList "read_t".toList "d/e/f1.fits".toList) = true ∧
    fsHas (runBatch c6Reader "read_t".toList "s".toList
        ["d/e/f1.fits".toList, "d/e/f2.fits".toList, "d/e/f3.fits".toList] []).2
      (canonicalCachePath "s".toList "read_t".toList "d/e/f3.fits".toList) = false := by
  decide

/-- C6 amended: the batch is fail-fast — once processing of a prefix of the
file list ends in an error, the whole batch returns that error with the
cache store exactly as the prefix left it, and the remaining files are
never processed; files converted before the failure stay cached (so a
retry resumes idempotently). -/
theorem batch_fail_fast (read : Reader) (rn : Name) (store : Path) :
    ∀ (fns₁ fns₂ : List Path) (fs fs₁ : FS) (e : Unit),
    runBatch read rn store fns₁ fs = (.error e, fs₁) →
    runBatch read rn store (fns₁ ++ fns₂) fs = (.error e, fs₁) := by
  intro fns₁
  induction fns₁ with
  | nil =>
    intro fns₂ fs fs₁ e h
    simp [runBatch] at h
  | cons fn rest ih =>
    intro fns₂ fs fs₁ e h
    simp only [runBatch, List.cons_append, List.append_eq] at h ⊢
    cases hs : singleViaNetcdf read rn store fn fs with
    | error e' => rw [hs] at h; exact h
    | ok v =>
      obtain ⟨p, fs', ev⟩ := v
      rw [hs] at h
      cases hr : runBatch read rn store rest fs' with
      | mk res fs'' =>
        have h' : (match runBatch read rn store rest fs' with
            | (Except.error e₀, g) => ((Except.error e₀ : Except Unit (List Path)), g)
            | (Except.ok ps, g) => (Except.ok (p :: ps), g)) = (Except.error e, fs₁) := h
        rw [hr] at h'
        cases res with
        | error e'' =>
          show (match runBatch read rn store (rest ++ fns₂) fs' with
            | (Except.error e₀, g) => ((Except.error e₀ : Except Unit (List Path)), g)
            | (Except.ok ps, g) => (Except.ok (p :: ps), g)) = (Except.error e, fs₁)
          rw [ih fns₂ fs' fs'' e'' hr]
          exact h'
        | ok ps => cases h'

/-- Witness for C6's amended statement: the failing file aborts before the
rest of the batch. -/
theorem batch_fail_fast_witness :
    runBatch c6Reader "read_t".toList "s".toList
        (["d/e/f2.fits".toList] ++ ["d/e/f3.fits".toList]) [] = (.error (), []) :=
  batch_fail_fast c6Reader "read_t".toList "s".toList
    ["d/e/f2.fits".toList] ["d/e/f3.fits".toList] [] [] () (by decide)

/-! ## C8: the written artifact carries the length-one `filename` axis -/

/-- C8: whenever `single_via_netcdf` converts a file (no artifact present,
reader succeeds), the dataset written at the canonical path is the reader's
dataset expanded with a `filename` dimension/coordinate whose single value
is the source file's base name without extension, and that dimension leads
every data variable of the written dataset. -/
theorem cached_filename_axis (read : Reader) (rn : Name) (store fn : Path)
    (fs fs' : FS) (ds : Dataset) (p : Path) (ev : List Ev)
    (habs : fsHas fs (canonicalCachePath store rn fn) = false)
    (hread : read fn = .ok ds)
    (hrun : singleViaNetcdf read rn store fn fs = .ok (p, fs', ev)) :
    fsGet fs' p = some (expandDims "filename".toList [stemOfBasename fn] ds) ∧
    (expandDims "filename".toList [stemOfBasename fn] ds).strCoords.head? =
      some ("filename".toList, [stemOfBasename fn]) ∧
    [stemOfBasename fn].length = 1 ∧
    (expandDims "filename".toList [stemOfBasename fn] ds).dataVars.all
      (fun nv => decide (nv.2.dims.head? = some "filename".toList)) = true := by
  simp only [singleViaNetcdf] at hrun
  rw [if_neg (by simp [habs]), hread] at hrun
  cases hrun
  refine ⟨fsGet_write_self .., rfl, rfl, ?_⟩
  simp only [expandDims, List.all_eq_true, List.mem_map]
  rintro nv ⟨q, _, rfl⟩
  simp

/-! ## Path-computation lemmas for C3 and C5 -/

lemma mem_of_getLastQ : ∀ (l : List Char) (a : Char), l.getLast? = some a → a ∈ l := by
  intro l
  induction l with
  | nil => intro a h; cases h
  | cons x xs ih =>
    intro a h
    cases xs with
    | nil =>
      simp [List.getLast?] at h
      simp [h]
    | cons y ys =>
      rw [List.getLast?_cons_cons] at h
      exact List.mem_cons_of_mem _ (ih a h)

lemma slash_not_isPrefixOf (l : List Char) (h : '/' ∉ l) : ['/'].isPrefixOf l = false := by
  cases l with
  | nil => rfl
  | cons c cs =>
    have hc : c ≠ '/' := by
      intro hh
      subst hh
      exact h (List.mem_cons_self _ _)
    simp [List.isPrefixOf, hc, Ne.symm hc]

lemma getLastQ_append_cons_ne_slash (l m : List Char) (x : Char)
    (hm : m ≠ []) (h : '/' ∉ m) : (l ++ x :: m).getLast? ≠ some '/' := by
  rw [List.getLast?_append_cons]
  cases m with
  | nil => exact absurd rfl hm
  | cons m0 m' =>
    rw [List.getLast?_cons_cons]
    intro hc
    exact h (mem_of_getLastQ _ _ hc)

lemma joinPath_step (acc b : Path) (rest : List Path)
    (hb : '/' ∉ b) (hacc : acc ≠ []) (haccl : acc.getLast? ≠ some '/') :
    joinPath acc (b :: rest) = joinPath (acc ++ '/' :: b) rest := by
  simp only [joinPath]
  rw [if_neg (show ¬(['/'].isPrefixOf b = true) by simp [slash_not_isPrefixOf b hb]),
      if_neg (show ¬(acc = [] ∨ acc.getLast? = some '/') by
        rintro (h | h)
        · exact hacc h
        · exact haccl h)]

lemma joinPath_three (store a b c : Path)
    (hs : store ≠ []) (hsl : store.getLast? ≠ some '/')
    (ha : a ≠ []) (ha' : '/' ∉ a) (hb : b ≠ []) (hb' : '/' ∉ b) (hc' : '/' ∉ c) :
    joinPath store [a, b, c] = ((store ++ '/' :: a) ++ '/' :: b) ++ '/' :: c := by
  rw [joinPath_step store a [b, c] ha' hs hsl,
      joinPath_step (store ++ '/' :: a) b [c] hb' (by simp)
        (getLastQ_append_cons_ne_slash store a '/' ha ha'),
      joinPath_step ((store ++ '/' :: a) ++ '/' :: b) c [] hc' (by simp)
        (getLastQ_append_cons_ne_slash _ b '/' hb hb')]
  rfl

lemma contains_eq_false_of_not_mem (l : List Char) (c : Char) (h : c ∉ l) :
    l.contains c = false := by
  simpa using h

lemma splitLastSep_no_sep (sep : Char) :
    ∀ (l : List Char), sep ∉ l → splitLastSep sep l = ([], l) := by
  intro l
  induction l with
  | nil => intro _; rfl
  | cons c rest ih =>
    intro h
    have h1 : sep ∉ rest := fun hm => h (List.mem_cons_of_mem _ hm)
    have h2 : c ≠ sep := by
      intro hh
      subst hh
      exact h (List.mem_cons_self _ _)
    simp [splitLastSep, h1, h2, contains_eq_false_of_not_mem rest sep h1]

lemma splitLastSep_append_sep (sep : Char) (D c : List Char) (hc : sep ∉ c) :
    splitLastSep sep (D ++ sep :: c) = (D ++ [sep], c) := by
  induction D with
  | nil =>
    simp [splitLastSep, hc, contains_eq_false_of_not_mem c sep hc]
  | cons d D' ih =>
    have hmem : (D' ++ sep :: c).contains sep = true := by
      simp
    simp [splitLastSep, hmem, ih]

lemma splitext_append_dir (D c : List Char) (hc : '/' ∉ c) :
    (splitext (D ++ '/' :: c)).1 = D ++ '/' :: (splitext c).1 := by
  simp only [splitext, splitLastSep_append_sep '/' D c hc, splitLastSep_no_sep '/' c hc]
  by_cases hd : (splitLastSep '.' c).1 = []
  · simp [hd]
  · by_cases hany : ∃ x ∈ (splitLastSep '.' c).1.dropLast, ¬x = '.'
    · simp [hd, hany]
    · simp [hd, hany]

/-- Evaluation of `single_via_netcdf`'s path computation: when the
normalized source path ends in the three segments `a/b/c`, the canonical
cache path is the cache root, then `a`, then `b`, then the stem of `c`
followed by `_<table>.nc` — the final segment is replaced, not nested
under. -/
lemma canonicalCachePath_unfold (store : Path) (rn : Name) (fn : Path) (a b c : Name)
    (h3 : lastThree (splitSep '/' (normpath fn)) = [a, b, c])
    (hs : store ≠ []) (hsl : store.getLast? ≠ some '/')
    (ha : a ≠ []) (ha' : '/' ∉ a) (hb : b ≠ []) (hb' : '/' ∉ b) (hc' : '/' ∉ c) :
    canonicalCachePath store rn fn =
      ((store ++ '/' :: a) ++ '/' :: b) ++
        '/' :: ((splitext c).1 ++ '_' :: (pyReplace "read_".toList [] rn ++ ".nc".toList)) := by
  simp only [canonicalCachePath, h3]
  rw [joinPath_three store a b c hs hsl ha ha' hb hb' hc',
      splitext_append_dir ((store ++ '/' :: a) ++ '/' :: b) c hc']
  simp [List.append_assoc]

lemma append_cons_sep_inj :
    ∀ (a₁ a₂ r₁ r₂ : List Char), '/' ∉ a₁ → '/' ∉ a₂ →
      a₁ ++ '/' :: r₁ = a₂ ++ '/' :: r₂ → a₁ = a₂ ∧ r₁ = r₂ := by
  intro a₁
  induction a₁ with
  | nil =>
    intro a₂ r₁ r₂ _ h₂ h
    cases a₂ with
    | nil =>
      simp only [List.nil_append] at h
      injection h with _ hr
      exact ⟨rfl, hr⟩
    | cons x a₂' =>
      simp only [List.nil_append, List.cons_append] at h
      injection h with hx _
      subst hx
      exact absurd (List.mem_cons_self _ _) h₂
  | cons y a₁' ih =>
    intro a₂ r₁ r₂ h₁ h₂ h
    cases a₂ with
    | nil =>
      simp only [List.nil_append, List.cons_append] at h
      injection h with hx _
      exact absurd (hx ▸ List.mem_cons_self y a₁') h₁
    | cons x a₂' =>
      simp only [List.cons_append] at h
      injection h with hx hr
      subst hx
      obtain ⟨he, hr'⟩ := ih a₂' r₁ r₂
        (fun hm => h₁ (List.mem_cons_of_mem _ hm))
        (fun hm => h₂ (List.mem_cons_of_mem _ hm)) hr
      exact ⟨by rw [he], hr'⟩

/-! ## C3: uniqueness of canonical cache paths -/

/-- C3 counterexample: two source files in the same directory whose last
path components differ only in the extension (`c.fits` versus `c.dat`) have
different last-three-segment lists but identical canonical cache paths for
the same reader — the claimed injectivity fails. -/
theorem cache_path_collision_counterexample :
    lastThree (splitSep '/' (normpath "a/b/c.fits".toList)) ≠
      lastThree (splitSep '/' (normpath "a/b/c.dat".toList)) ∧
    canonicalCachePath "s".toList "read_t".toList "a/b/c.fits".toList =
      canonicalCachePath "s".toList "read_t".toList "a/b/c.dat".toList := by
  decide

/-- C3 amended: for well-formed path components, the canonical cache path
determines the two directory segments and the string
`<stem>_<table-name>`; two `(reader, file)` pairs collide only when their
middle directory segments agree and their stem-plus-table strings agree
(as happens when the two files differ only in their extension). -/
theorem cache_path_determines_components
    (store : Path) (rn₁ rn₂ : Name) (fn₁ fn₂ : Path) (a₁ b₁ c₁ a₂ b₂ c₂ : Name)
    (h₁ : lastThree (splitSep '/' (normpath fn₁)) = [a₁, b₁, c₁])
    (h₂ : lastThree (splitSep '/' (normpath fn₂)) = [a₂, b₂, c₂])
    (hs : store ≠ []) (hsl : store.getLast? ≠ some '/')
    (ha₁ : a₁ ≠ []) (ha₁' : '/' ∉ a₁) (hb₁ : b₁ ≠ []) (hb₁' : '/' ∉ b₁) (hc₁' : '/' ∉ c₁)
    (ha₂ : a₂ ≠ []) (ha₂' : '/' ∉ a₂) (hb₂ : b₂ ≠ []) (hb₂' : '/' ∉ b₂) (hc₂' : '/' ∉ c₂)
    (hne : a₁ ≠ a₂ ∨ b₁ ≠ b₂ ∨
      (splitext c₁).1 ++ '_' :: pyReplace "read_".toList [] rn₁ ≠
        (splitext c₂).1 ++ '_' :: pyReplace "read_".toList [] rn₂) :
    canonicalCachePath store rn₁ fn₁ ≠ canonicalCachePath store rn₂ fn₂ := by
  intro heq
  rw [canonicalCachePath_unfold store rn₁ fn₁ a₁ b₁ c₁ h₁ hs hsl ha₁ ha₁' hb₁ hb₁' hc₁',
      canonicalCachePath_unfold store rn₂ fn₂ a₂ b₂ c₂ h₂ hs hsl ha₂ ha₂' hb₂ hb₂' hc₂'] at heq
  have heq' :
      store ++ '/' :: (a₁ ++ '/' :: (b₁ ++ '/' ::
        ((splitext c₁).1 ++ '_' :: (pyReplace "read_".toList [] rn₁ ++ ".nc".toList)))) =
      store ++ '/' :: (a₂ ++ '/' :: (b₂ ++ '/' ::
        ((splitext c₂).1 ++ '_' :: (pyReplace "read_".toList [] rn₂ ++ ".nc".toList)))) := by
    simpa [List.append_assoc] using heq
  have h0 := List.append_cancel_left heq'
  injection h0 with _ h0'
  obtain ⟨hea, hpeel₁⟩ := append_cons_sep_inj a₁ a₂ _ _ ha₁' ha₂' h0'
  obtain ⟨heb, hpeel₂⟩ := append_cons_sep_inj b₁ b₂ _ _ hb₁' hb₂' hpeel₁
  have hx : ((splitext c₁).1 ++ '_' :: pyReplace "read_".toList [] rn₁) ++ ".nc".toList =
      ((splitext c₂).1 ++ '_' :: pyReplace "read_".toList [] rn₂) ++ ".nc".toList := by
    simpa [List.append_assoc] using hpeel₂
  have hst := List.append_cancel_right hx
  rcases hne with h | h | h
  · exact h hea
  · exact h heb
  · exact h hst

/-- Witness for C3's amended statement: same reader, same directory,
different stems give distinct canonical paths. -/
theorem cache_path_determines_components_witness :
    canonicalCachePath "s".toList "read_t".toList "a/b/c.fits".toList ≠
      canonicalCachePath "s".toList "read_t".toList "a/b/d.fits".toList :=
  cache_path_determines_components "s".toList "read_t".toList "read_t".toList
    "a/b/c.fits".toList "a/b/d.fits".toList
    ['a'] ['b'] "c.fits".toList ['a'] ['b'] "d.fits".toList
    (by decide) (by decide) (by decide) (by decide) (by decide) (by decide)
    (by decide) (by decide) (by decide) (by decide) (by decide) (by decide)
    (by decide) (by decide) (by decide)

/-! ## C5: the canonical cache path format -/

/-- C5 counterexample: the code's canonical cache path replaces the source
file's final path segment with `<stem>_<table>.nc`, while the spec's
stated format keeps all three segments and nests
`<basename-without-extension>_<table>.nc` under them; the two disagree on a
concrete file. -/
theorem spec_path_format_counterexample :
    canonicalCachePath "s".toList "read_t".toList "a/b/c.fits".toList ≠
      specPathFormat "s".toList "read_t".toList "a/b/c.fits".toList ∧
    canonicalCachePath "s".toList "read_t".toList "a/b/c.fits".toList =
      "s/a/b/c_t.nc".toList ∧
    specPathFormat "s".toList "read_t".toList "a/b/c.fits".toList =
      "s/a/b/c.fits/c_t.nc".toList := by
  decide

/-- C5 amended: for a source path whose normalized last three segments are
`a/b/c`, the canonical cache path is
`<cache_root>/a/b/<stem of c>_<table>.nc` — the first two of the last three
segments with original separators, then the basename without extension,
joined with `_<table>.nc`, where `table` is the reader's name with
`"read_"` removed. -/
theorem canonical_cache_path_format (store : Path) (rn : Name) (fn : Path) (a b c : Name)
    (h3 : lastThree (splitSep '/' (normpath fn)) = [a, b, c])
    (hs : store ≠ []) (hsl : store.getLast? ≠ some '/')
    (ha : a ≠ []) (ha' : '/' ∉ a) (hb : b ≠ []) (hb' : '/' ∉ b) (hc' : '/' ∉ c) :
    canonicalCachePath store rn fn =
      ((store ++ '/' :: a) ++ '/' :: b) ++
        '/' :: ((splitext c).1 ++ '_' :: (pyReplace "read_".toList [] rn ++ ".nc".toList)) :=
  canonicalCachePath_unfold store rn fn a b c h3 hs hsl ha ha' hb hb' hc'

/-- Witness for C5's amended statement at a concrete path. -/
theorem canonical_cache_path_format_witness :
    canonicalCachePath "s".toList "read_t".toList "/x/a/b/c.fits".toList =
      (("s".toList ++ '/' :: ['a']) ++ '/' :: ['b']) ++
        '/' :: ((splitext "c.fits".toList).1 ++
          '_' :: (pyReplace "read_".toList [] "read_t".toList ++ ".nc".toList)) :=
  canonical_cache_path_format "s".toList "read_t".toList "/x/a/b/c.fits".toList
    ['a'] ['b'] "c.fits".toList
    (by decide) (by decide) (by decide) (by decide) (by decide) (by decide)
    (by decide) (by decide)

/-- Witness for C8 at a concrete conversion into an empty cache store. -/
theorem cached_filename_axis_witness :
    fsGet (fsWrite [] (canonicalCachePath "s".toList "read_t".toList "a/b/c.fits".toList)
        (expandDims "filename".toList [stemOfBasename "a/b/c.fits".toList] exDataset))
      (canonicalCachePath "s".toList "read_t".toList "a/b/c.fits".toList) =
      some (expandDims "filename".toList [stemOfBasename "a/b/c.fits".toList] exDataset) ∧
    (expandDims "filename".toList [stemOfBasename "a/b/c.fits".toList] exDataset).strCoords.head? =
      some ("filename".toList, [stemOfBasename "a/b/c.fits".toList]) ∧
    [stemOfBasename "a/b/c.fits".toList].length = 1 ∧
    (expandDims "filename".toList [stemOfBasename "a/b/c.fits".toList] exDataset).dataVars.all
      (fun nv => decide (nv.2.dims.head? = some "filename".toList)) = true :=
  cached_filename_axis okReader "read_t".toList "s".toList "a/b/c.fits".toList
    [] _ exDataset _
    [Ev.readSource "a/b/c.fits".toList,
     Ev.makeDirs (splitLastSep '/'
       (canonicalCachePath "s".toList "read_t".toList "a/b/c.fits".toList)).1,
     Ev.writeFile (canonicalCachePath "s".toList "read_t".toList "a/b/c.fits".toList)]
    (by decide) rfl (by decide)

/-! ## Reader lemmas for C4 and C9 -/

lemma popCol_mem (n : Name) :
    ∀ (cols rest : Table) (v₀ : RawCol) (c : Name) (v : RawCol),
      popCol n cols = .ok (v₀, rest) → (c, v) ∈ cols → c ≠ n → (c, v) ∈ rest := by
  intro cols
  induction cols with
  | nil =>
    intro rest v₀ c v h
    simp [popCol] at h
  | cons p ps ih =>
    intro rest v₀ c v h hm hne
    obtain ⟨c₀, w₀⟩ := p
    simp only [popCol] at h
    by_cases hc : c₀ = n
    · rw [if_pos hc] at h
      cases h
      rcases List.mem_cons.mp hm with he | hm'
      · cases he
        exact absurd hc hne
      · exact hm'
    · rw [if_neg hc] at h
      cases hrec : popCol n ps with
      | error e => rw [hrec] at h; cases h
      | ok pr =>
        obtain ⟨w, rest'⟩ := pr
        rw [hrec] at h
        cases h
        rcases List.mem_cons.mp hm with he | hm'
        · cases he
          exact List.mem_cons_self _ _
        · exact List.mem_cons_of_mem _ (ih _ _ c v hrec hm' hne)

lemma promoteCoords_ok_elig (elig : Name → Bool) (cname : Name → Name) :
    ∀ (cols cs : Table) (cds : List (Name × List Fr)) (c : Name) (v : RawCol),
      promoteCoords elig cname cols = .ok (cs, cds) → (c, v) ∈ cols → elig c = true →
      rowsRounded v.data = true ∧
        (cname c, (roundedMean v.data).map frTh) ∈ cds := by
  intro cols
  induction cols with
  | nil =>
    intro cs cds c v h hm
    cases hm
  | cons p ps ih =>
    intro cs cds c v h hm hel
    obtain ⟨c₀, v₀⟩ := p
    simp only [promoteCoords] at h
    by_cases he : elig c₀ = true
    · rw [if_pos he] at h
      by_cases hall : v₀.data.all (fun r => decide (r.map round3 = roundedMean v₀.data)) = true
      · rw [if_pos hall] at h
        cases hrec : promoteCoords elig cname ps with
        | error e => rw [hrec] at h; cases h
        | ok pr =>
          obtain ⟨cs', cds'⟩ := pr
          rw [hrec] at h
          cases h
          rcases List.mem_cons.mp hm with he2 | hm'
          · cases he2
            exact ⟨hall, List.mem_cons_self _ _⟩
          · obtain ⟨hr, hcd⟩ := ih _ _ c v hrec hm' hel
            exact ⟨hr, List.mem_cons_of_mem _ hcd⟩
      · rw [if_neg hall] at h
        cases h
    · rw [if_neg he] at h
      cases hrec : promoteCoords elig cname ps with
      | error e => rw [hrec] at h; cases h
      | ok pr =>
        obtain ⟨cs', cds'⟩ := pr
        rw [hrec] at h
        cases h
        rcases List.mem_cons.mp hm with he2 | hm'
        · cases he2
          exact absurd hel he
        · exact ih _ _ c v hrec hm' hel

lemma promoteCoords_ok_kept (elig : Name → Bool) (cname : Name → Name) :
    ∀ (cols cs : Table) (cds : List (Name × List Fr)) (c : Name) (v : RawCol),
      promoteCoords elig cname cols = .ok (cs, cds) → (c, v) ∈ cs → elig c = false := by
  intro cols
  induction cols with
  | nil =>
    intro cs cds c v h hm
    cases h
    cases hm
  | cons p ps ih =>
    intro cs cds c v h hm
    obtain ⟨c₀, v₀⟩ := p
    simp only [promoteCoords] at h
    by_cases he : elig c₀ = true
    · rw [if_pos he] at h
      by_cases hall : v₀.data.all (fun r => decide (r.map round3 = roundedMean v₀.data)) = true
      · rw [if_pos hall] at h
        cases hrec : promoteCoords elig cname ps with
        | error e => rw [hrec] at h; cases h
        | ok pr =>
          obtain ⟨cs', cds'⟩ := pr
          rw [hrec] at h
          cases h
          exact ih _ _ c v hrec hm
      · rw [if_neg hall] at h
        cases h
    · rw [if_neg he] at h
      cases hrec : promoteCoords elig cname ps with
      | error e => rw [hrec] at h; cases h
      | ok pr =>
        obtain ⟨cs', cds'⟩ := pr
        rw [hrec] at h
        cases h
        rcases List.mem_cons.mp hm with he2 | hm'
        · cases he2
          simpa using he
        · exact ih _ _ c v hrec hm'

lemma buildVars_fst (extra : Name → List Name) (cols : Table) :
    (buildVars extra cols).map Prod.fst = cols.map Prod.fst := by
  simp [buildVars, List.map_map]

lemma apsLeading_buildVars (extra : Name → List Name) (cols : Table)
    (coords : List (Name × List Fr)) (strc : List (Name × List Name)) :
    apsLeading ⟨buildVars extra cols, coords, strc⟩ = true := by
  simp only [apsLeading, buildVars, List.all_eq_true, List.mem_map]
  rintro nv ⟨q, _, rfl⟩
  simp

/-! ## C4: the shared-coordinate promotion invariant -/

/-- C4: in `read_class_table` (`CZZ_*` columns without `CHI2`) and
`read_class_spec` (`LAMBDA_*` columns), a promotion-eligible column of a
successfully read table satisfies the rounding invariant (every row rounded
to three decimals equals the rounded across-row mean), is removed from the
data variables and appears as a coordinate; and when any row disagrees the
reader fails its assertion instead of returning a dataset. -/
theorem coord_promotion_invariant (t : Table) (ds : Dataset) (c : Name) (v : RawCol) :
    ((c, v) ∈ t → eligClassTable c = true → read_class_table t = .ok ds →
      rowsRounded v.data = true ∧
        (c, (roundedMean v.data).map frTh) ∈ ds.coords ∧
        c ∉ ds.dataVars.map Prod.fst) ∧
    ((c, v) ∈ t → eligClassTable c = true → rowsRounded v.data = false →
      read_class_table t ≠ .ok ds) ∧
    ((c, v) ∈ t → eligClassSpec c = true → read_class_spec t = .ok ds →
      rowsRounded v.data = true ∧
        (cnameClassSpec c, (roundedMean v.data).map frTh) ∈ ds.coords ∧
        c ∉ ds.dataVars.map Prod.fst) ∧
    ((c, v) ∈ t → eligClassSpec c = true → rowsRounded v.data = false →
      read_class_spec t ≠ .ok ds) := by
  have main1 : (c, v) ∈ t → eligClassTable c = true → read_class_table t = .ok ds →
      rowsRounded v.data = true ∧
        (c, (roundedMean v.data).map frTh) ∈ ds.coords ∧
        c ∉ ds.dataVars.map Prod.fst := by
    intro hm hel hok
    simp only [read_class_table] at hok
    cases hpop : popCol "APS_ID".toList t with
    | error e => rw [hpop] at hok; cases hok
    | ok pr =>
      obtain ⟨aps, cols0⟩ := pr
      rw [hpop] at hok
      have hok' : (match promoteCoords eligClassTable (fun c => c) cols0 with
          | Except.error e => (Except.error e : Except Unit Dataset)
          | Except.ok (cols, czz) =>
            Except.ok { dataVars := buildVars extraClassTable cols,
                        coords := ("APS_ID".toList, scalarVec aps.data) :: czz,
                        strCoords := [] }) = Except.ok ds := hok
      cases hpr : promoteCoords eligClassTable (fun c => c) cols0 with
      | error e => rw [hpr] at hok'; cases hok'
      | ok pr2 =>
        obtain ⟨cs, czz⟩ := pr2
        rw [hpr] at hok'
        cases hok'
        have hmc : (c, v) ∈ cols0 := by
          refine popCol_mem _ t cols0 aps c v hpop hm ?_
          intro hcc
          subst hcc
          exact absurd hel (by decide)
        obtain ⟨hr, hcd⟩ := promoteCoords_ok_elig _ _ cols0 cs czz c v hpr hmc hel
        refine ⟨hr, List.mem_cons_of_mem _ hcd, ?_⟩
        rw [buildVars_fst]
        intro hin
        obtain ⟨x, hx, hxe⟩ := List.mem_map.mp hin
        have hkept := promoteCoords_ok_kept _ _ cols0 cs czz x.1 x.2 hpr (by simpa using hx)
        rw [hxe] at hkept
        rw [hkept] at hel
        cases hel
  have main3 : (c, v) ∈ t → eligClassSpec c = true → read_class_spec t = .ok ds →
      rowsRounded v.data = true ∧
        (cnameClassSpec c, (roundedMean v.data).map frTh) ∈ ds.coords ∧
        c ∉ ds.dataVars.map Prod.fst := by
    intro hm hel hok
    simp only [read_class_spec] at hok
    cases hpop : popCol "APS_ID".toList t with
    | error e => rw [hpop] at hok; cases hok
    | ok pr =>
      obtain ⟨aps, cols0⟩ := pr
      rw [hpop] at hok
      have hok' : (match promoteCoords eligClassSpec cnameClassSpec cols0 with
          | Except.error e => (Except.error e : Except Unit Dataset)
          | Except.ok (cols, lam) =>
            Except.ok { dataVars := buildVars extraClassSpec cols,
                        coords := ("APS_ID".toList, scalarVec aps.data) :: lam,
                        strCoords := [] }) = Except.ok ds := hok
      cases hpr : promoteCoords eligClassSpec cnameClassSpec cols0 with
      | error e => rw [hpr] at hok'; cases hok'
      | ok pr2 =>
        obtain ⟨cs, lam⟩ := pr2
        rw [hpr] at hok'
        cases hok'
        have hmc : (c, v) ∈ cols0 := by
          refine popCol_mem _ t cols0 aps c v hpop hm ?_
          intro hcc
          subst hcc
          exact absurd hel (by decide)
        obtain ⟨hr, hcd⟩ := promoteCoords_ok_elig _ _ cols0 cs lam c v hpr hmc hel
        refine ⟨hr, List.mem_cons_of_mem _ hcd, ?_⟩
        rw [buildVars_fst]
        intro hin
        obtain ⟨x, hx, hxe⟩ := List.mem_map.mp hin
        have hkept := promoteCoords_ok_kept _ _ cols0 cs lam x.1 x.2 hpr (by simpa using hx)
        rw [hxe] at hkept
        rw [hkept] at hel
        cases hel
  refine ⟨main1, ?_, main3, ?_⟩
  · intro hm hel hbad hok
    obtain ⟨hr, -, -⟩ := main1 hm hel hok
    rw [hbad] at hr
    cases hr
  · intro hm hel hbad hok
    obtain ⟨hr, -, -⟩ := main3 hm hel hok
    rw [hbad] at hr
    cases hr

/-- Witness for C4: a constant `CZZ`/`LAMBDA` column is promoted on concrete
good tables, and concrete tables violating the rounding invariant make the
readers fail. -/
theorem coord_promotion_invariant_witness :
    (rowsRounded [[frInt 2], [frInt 2]] = true ∧
      ("CZZ_Z6".toList, (roundedMean [[frInt 2], [frInt 2]]).map frTh) ∈ dsGoodClass.coords ∧
      "CZZ_Z6".toList ∉ dsGoodClass.dataVars.map Prod.fst) ∧
    read_class_table tBadClass ≠ .ok exDataset ∧
    (rowsRounded [[frInt 4], [frInt 4]] = true ∧
      (cnameClassSpec "LAMBDA_B".toList,
        (roundedMean [[frInt 4], [frInt 4]]).map frTh) ∈ dsGoodSpec.coords ∧
      "LAMBDA_B".toList ∉ dsGoodSpec.dataVars.map Prod.fst) ∧
    read_class_spec tBadSpec ≠ .ok exDataset :=
  ⟨(coord_promotion_invariant tGoodClass dsGoodClass "CZZ_Z6".toList
      ⟨[[frInt 2], [frInt 2]], "None".toList⟩).1 (by decide) (by decide) (by decide),
   (coord_promotion_invariant tBadClass exDataset "CZZ_Z6".toList
      ⟨[[frInt 2], [frInt 3]], "None".toList⟩).2.1 (by decide) (by decide) (by decide),
   (coord_promotion_invariant tGoodSpec dsGoodSpec "LAMBDA_B".toList
      ⟨[[frInt 4], [frInt 4]], "Angstrom".toList⟩).2.2.1 (by decide) (by decide) (by decide),
   (coord_promotion_invariant tBadSpec exDataset "LAMBDA_B".toList
      ⟨[[frInt 4], [frInt 5]], "Angstrom".toList⟩).2.2.2 (by decide) (by decide) (by decide)⟩

/-! ## C9: `APS_ID` leads every data variable's dimensions -/

/-- C9: for each of the six readers, every data variable of a successfully
returned dataset has `APS_ID` as the first entry of its dimension list. -/
theorem aps_id_first_dimension (t : Table) (ds : Dataset) :
    (read_class_table t = .ok ds → apsLeading ds = true) ∧
    (read_star_table t = .ok ds → apsLeading ds = true) ∧
    (read_galaxy_table t = .ok ds → apsLeading ds = true) ∧
    (read_class_spec t = .ok ds → apsLeading ds = true) ∧
    (read_star_spec t = .ok ds → apsLeading ds = true) ∧
    (read_galaxy_spec t = .ok ds → apsLeading ds = true) := by
  refine ⟨?_, ?_, ?_, ?_, ?_, ?_⟩
  · intro h
    simp only [read_class_table] at h
    cases hpop : popCol "APS_ID".toList t with
    | error e => rw [hpop] at h; cases h
    | ok pr =>
      obtain ⟨aps, cols0⟩ := pr
      rw [hpop] at h
      have h' : (match promoteCoords eligClassTable (fun c => c) cols0 with
          | Except.error e => (Except.error e : Except Unit Dataset)
          | Except.ok (cols, czz) =>
            Except.ok { dataVars := buildVars extraClassTable cols,
                        coords := ("APS_ID".toList, scalarVec aps.data) :: czz,
                        strCoords := [] }) = Except.ok ds := h
      cases hpr : promoteCoords eligClassTable (fun c => c) cols0 with
      | error e => rw [hpr] at h'; cases h'
      | ok pr2 =>
        obtain ⟨cs, czz⟩ := pr2
        rw [hpr] at h'
        cases h'
        exact apsLeading_buildVars ..
  · intro h
    simp only [read_star_table] at h
    cases hpop : popCol "APS_ID".toList t with
    | error e => rw [hpop] at h; cases h
    | ok pr =>
      obtain ⟨aps, cols0⟩ := pr
      rw [hpop] at h
      cases h
      exact apsLeading_buildVars ..
  · intro h
    simp only [read_galaxy_table] at h
    cases hpop : popCol "APS_ID".toList t with
    | error e => rw [hpop] at h; cases h
    | ok pr =>
      obtain ⟨aps, cols0⟩ := pr
      rw [hpop] at h
      cases h
      simp only [apsLeading, List.all_eq_true, List.mem_map]
      rintro nv ⟨iv, _, rfl⟩
      simp
  · intro h
    simp only [read_class_spec] at h
    cases hpop : popCol "APS_ID".toList t with
    | error e => rw [hpop] at h; cases h
    | ok pr =>
      obtain ⟨aps, cols0⟩ := pr
      rw [hpop] at h
      have h' : (match promoteCoords eligClassSpec cnameClassSpec cols0 with
          | Except.error e => (Except.error e : Except Unit Dataset)
          | Except.ok (cols, lam) =>
            Except.ok { dataVars := buildVars extraClassSpec cols,
                        coords := ("APS_ID".toList, scalarVec aps.data) :: lam,
                        strCoords := [] }) = Except.ok ds := h
      cases hpr : promoteCoords eligClassSpec cnameClassSpec cols0 with
      | error e => rw [hpr] at h'; cases h'
      | ok pr2 =>
        obtain ⟨cs, lam⟩ := pr2
        rw [hpr] at h'
        cases h'
        exact apsLeading_buildVars ..
  · intro h
    simp only [read_star_spec] at h
    cases hpop : popCol "APS_ID".toList t with
    | error e => rw [hpop] at h; cases h
    | ok pr =>
      obtain ⟨aps, cols0⟩ := pr
      rw [hpop] at h
      cases h
      exact apsLeading_buildVars ..
  · intro h
    simp only [read_galaxy_spec] at h
    cases hpop : popCol "APS_ID".toList t with
    | error e => rw [hpop] at h; cases h
    | ok pr =>
      obtain ⟨aps, cols0⟩ := pr
      rw [hpop] at h
      cases h
      exact apsLeading_buildVars ..

/-- Witness for C9: each reader applied to a concrete table yields a dataset
whose data variables all lead with `APS_ID`. -/
theorem aps_id_first_dimension_witness :
    apsLeading dsA = true ∧ apsLeading dsB = true ∧ apsLeading dsA = true ∧
    apsLeading dsA = true ∧ apsLeading dsA = true ∧ apsLeading dsA = true :=
  ⟨(aps_id_first_dimension t0 dsA).1 (by decide),
   (aps_id_first_dimension t0 dsB).2.1 (by decide),
   (aps_id_first_dimension t0 dsA).2.2.1 (by decide),
   (aps_id_first_dimension t0 dsA).2.2.2.1 (by decide),
   (aps_id_first_dimension t0 dsA).2.2.2.2.1 (by decide),
   (aps_id_first_dimension t0 dsA).2.2.2.2.2 (by decide)⟩

end Qagmire
